import Mathlib

/-!
Shallow embedding of the event-study pipeline in `task_project2.py`
(M&A announcement event windows, return attribution, event-time panel and
positive-return statistic), together with theorems settling the spec claims.

Modelling conventions used throughout:

* Calendar dates are whole days, represented by an integer day number
  (plain `Int`).  All timestamps in the pipeline are midnight-normalised
  dates, `announce + pd.Timedelta(days=k)` is `a + k`, and
  `(date - announcement).dt.days` is integer subtraction.
* Return values are rationals (`Rat`), modelling the exact arithmetic the
  pandas float operations approximate.
* A missing value (pandas `NaN`) is `Option.none`; a wide frame's cell is an
  `Option Rat` so a column can hold missing entries.
* A `DataFrame` is a `List` of row structures (a `RangeIndex` frame), a
  `Series` indexed by date is a `List (Int × _)` of index/value pairs, and a
  wide date-by-ticker frame is a `Wide` record below.
-/

namespace Project2

/-- Row of the raw deal-record table `ma_deals`: one row per
`(dealno, firmtype)` pair with columns `dealno`, `firmtype` (the string
`"acq"` or `"tgt"`), `ticker` and `announcement`. -/
structure DealRec where
  dealno : Int
  firmtype : String
  ticker : String
  announcement : Int
deriving DecidableEq, Repr

/-- Row of the output of `mk_ma_info`: announcement date, deal identifier,
acquirer ticker and target ticker. -/
structure Deal where
  announcement : Int
  dealno : Int
  acq : String
  tgt : String
deriving DecidableEq, Repr

/-- Row of the output of `expand_event_dates`: the columns of the events
frame plus the added `date` column. -/
structure ERow where
  date : Int
  announcement : Int
  dealno : Int
  acq : String
  tgt : String
deriving DecidableEq, Repr

/-- A wide date-by-ticker frame (`ma_rets.csv` style): a date index, a list
of ticker columns, and a cell lookup where `none` is a missing (`NaN`)
entry. -/
structure Wide where
  dates : List Int
  cols : List String
  cell : Int → String → Option Rat

/-- Long-format return row `{date, ticker, ret}` produced by
`helpers.wide_to_long_rets`. -/
structure LongRet where
  date : Int
  ticker : String
  ret : Rat
deriving DecidableEq, Repr

/-- Long-format abnormal-return row `{date, ticker, aret}` (the output shape
of `mk_stk_arets`). -/
structure ARet where
  date : Int
  ticker : String
  aret : Rat
deriving DecidableEq, Repr

/-- Embedding of `helpers.wide_to_long_rets`: `wide.stack()` walks the date
index in order, emits one row per non-missing `(date, ticker)` cell, and
drops missing cells. -/
def wide_to_long_rets (w : Wide) : List LongRet :=
  w.dates.flatMap fun d =>
    w.cols.filterMap fun t => (w.cell d t).map fun v => ⟨d, t, v⟩

/-- Embedding of `mk_ma_info`.  The source builds one frame of `"acq"` rows
and one of `"tgt"` rows, indexes both by `(announcement, dealno)`, and takes
an inner join of the acquirer frame with the target frame's `tgt` column:
each acquirer row is paired with every target row sharing its
`(announcement, dealno)` key. -/
def mk_ma_info (ma_deals : List DealRec) : List Deal :=
  let acqs := ma_deals.filter fun r => r.firmtype == "acq"
  let tgts := ma_deals.filter fun r => r.firmtype == "tgt"
  acqs.flatMap fun a =>
    (tgts.filter fun t =>
        t.announcement == a.announcement && t.dealno == a.dealno).map fun t =>
      ⟨a.announcement, a.dealno, a.ticker, t.ticker⟩

/-- Deduplicate and ascending-sort a date collection: the embedding of
`valid_dates.drop_duplicates().sort_values()`. -/
def dropDupSort (l : List Int) : List Int :=
  List.insertionSort (fun a b => a ≤ b) l.dedup

/-- The slice `dates.loc[start:end]` of the deduplicated sorted valid dates,
for the window `[announcement + 1, announcement + 30]`: pandas label slicing
on a sorted `DatetimeIndex` is inclusive on both ends. -/
def eventWindow (valid_dates : List Int) (announce : Int) : List Int :=
  (dropDupSort valid_dates).filter fun d =>
    decide (announce + 1 ≤ d) && decide (d ≤ announce + 30)

/-- Embedding of `expand_event_dates`.  For each event row the window of
valid dates from 1 to 30 calendar days after the announcement is computed;
an event with an empty window contributes nothing; each windowed date yields
one output row.  If no event contributed any row the function returns `None`
(the Python function falls off the end), otherwise the concatenation. -/
def expand_event_dates (events : List Deal) (valid_dates : List Int) :
    Option (List ERow) :=
  let out := events.flatMap fun ev =>
    (eventWindow valid_dates ev.announcement).map fun d =>
      ⟨d, ev.announcement, ev.dealno, ev.acq, ev.tgt⟩
  if out.isEmpty then none else some out

/-- Pandas `Series.mean()` of a list of (non-missing) values: `NaN` — here
`none` — on an empty list, otherwise the arithmetic mean. -/
def meanQ (l : List Rat) : Option Rat :=
  if l.isEmpty then none else some (l.sum / l.length)

/-- The target-side inner join of `mk_buy_tgt_sell_acq_rets` for one date:
each expanded row active on date `d` is matched (via its `tgt` ticker,
renamed to `ticker`) against the long-form return rows for that date, and
every matching return contributes one term. -/
def tgtRetsOn (expanded : List ERow) (rets : List LongRet) (d : Int) :
    List Rat :=
  (expanded.filter fun e => e.date == d).flatMap fun e =>
    (rets.filter fun r => r.date == d && r.ticker == e.tgt).map fun r => r.ret

/-- The acquirer-side inner join of `mk_buy_tgt_sell_acq_rets` for one date,
matching each active expanded row's `acq` ticker against that date's
long-form returns. -/
def acqRetsOn (expanded : List ERow) (rets : List LongRet) (d : Int) :
    List Rat :=
  (expanded.filter fun e => e.date == d).flatMap fun e =>
    (rets.filter fun r => r.date == d && r.ticker == e.acq).map fun r => r.ret

/-- Embedding of `mk_buy_tgt_sell_acq_rets`.  The source reshapes `stk_rets`
to long form, restricts to the dates present in both the expanded events and
the returns (`events.index.unique().intersection(rets.index)`), and for each
such date sets the output to `buys.ret.mean() - sales.ret.mean()` where
`buys`/`sales` are the per-date inner joins on `(date, ticker)`; finally
`dropna().sort_index()` removes the dates where either join was empty (the
`NaN` means) and sorts the index ascending. -/
def mk_buy_tgt_sell_acq_rets (expanded : List ERow) (stk_rets : Wide) :
    List (Int × Rat) :=
  let rets := wide_to_long_rets stk_rets
  let dates := ((expanded.map fun e => e.date).dedup).filter fun d =>
    (rets.map fun r => r.date).contains d
  let raw := dates.filterMap fun d =>
    match meanQ (tgtRetsOn expanded rets d), meanQ (acqRetsOn expanded rets d) with
    | some b, some s => some (d, b - s)
    | _, _ => none
  List.insertionSort (fun p q => p.1 ≤ q.1) raw

/-- Embedding of `mean_by_dates`: for each unique date of `date_col` the mean
of `value_col` over that date's rows (`NaN`, i.e. `none`, if the mean is over
no values), sorted ascending by date. -/
def mean_by_dates (l : List (Int × Rat)) : List (Int × Option Rat) :=
  let dates := (l.map fun p => p.1).dedup
  List.insertionSort (fun p q => p.1 ≤ q.1)
    (dates.map fun d => (d, meanQ ((l.filter fun p => p.1 == d).map fun p => p.2)))

/-- The inner join of `mk_buy_tgt_sell_mkt_rets`: each expanded row, keyed by
`(date, tgt)`, is matched against the abnormal-return rows on
`(date, ticker)`; every expanded row contributes one joined row per matching
abnormal return, so duplicate expanded rows each contribute their own row. -/
def tgtJoinARets (expanded : List ERow) (stk_arets : List ARet) :
    List (Int × Rat) :=
  expanded.flatMap fun e =>
    (stk_arets.filter fun r => r.date == e.date && r.ticker == e.tgt).map
      fun r => (e.date, r.aret)

/-- Embedding of `mk_buy_tgt_sell_mkt_rets`: inner join of the expanded
events' target tickers against the abnormal returns, then `mean_by_dates`
over the `aret` column, then `dropna().sort_index()`. -/
def mk_buy_tgt_sell_mkt_rets (expanded : List ERow) (stk_arets : List ARet) :
    List (Int × Rat) :=
  (mean_by_dates (tgtJoinARets expanded stk_arets)).filterMap fun p =>
    p.2.map fun v => (p.1, v)

/-- The joined `aret` terms of `mk_buy_tgt_sell_mkt_rets` for one date: the
`aret` column of the joined rows whose date is `d`, duplicates kept, as
averaged by `mean_by_dates`. -/
def aretTermsOn (expanded : List ERow) (stk_arets : List ARet) (d : Int) :
    List Rat :=
  ((tgtJoinARets expanded stk_arets).filter fun p => p.1 == d).map fun p => p.2

/-- Input row of `mk_tgt_rets_by_event_time`.  The frame carries at minimum
`date`, `announcement`, `dealno`, `acq`, `tgt`; the extra `event_time` field
models a pre-existing `event_time` column, which the source overwrites with
`(df.date - df.announcement).dt.days` before any use. -/
structure ERowET where
  date : Int
  announcement : Int
  dealno : Int
  acq : String
  tgt : String
  event_time : Int
deriving DecidableEq, Repr

/-- The event-time panel: the output frame of `mk_tgt_rets_by_event_time`,
with a (sorted) event-time index, deal-number columns, and an
`Option Rat`-valued cell lookup (`none` is `NaN`). -/
structure Panel where
  times : List Int
  deals : List Int
  cell : Int → Int → Option Rat

/-- One cell of the panel built by `mk_tgt_rets_by_event_time`: the rows are
written in order into the `(event_time, dealno)` cell, skipping (`continue`)
any row whose date is absent from the return frame's index or whose target
ticker is absent from its columns; a later row for the same cell overwrites
an earlier one, and the written value is the wide frame's cell (which may
itself be missing). -/
def panelCell (stk_rets : Wide) (expanded : List ERowET) (t d : Int) :
    Option Rat :=
  expanded.foldl
    (fun acc r =>
      if (r.date - r.announcement == t && r.dealno == d) then
        if stk_rets.dates.contains r.date && stk_rets.cols.contains r.tgt then
          stk_rets.cell r.date r.tgt
        else acc
      else acc)
    none

/-- Embedding of `mk_tgt_rets_by_event_time`: the index is the unique values
of the recomputed `event_time = (date - announcement).days` column (sorted
ascending by the final `sort_index()`), the columns are the unique deal
numbers, and each cell is filled by the row iteration of `panelCell`. -/
def mk_tgt_rets_by_event_time (stk_rets : Wide) (expanded : List ERowET) :
    Panel :=
  { times := List.insertionSort (fun a b => a ≤ b)
      ((expanded.map fun r => r.date - r.announcement).dedup)
    deals := (expanded.map fun r => r.dealno).dedup
    cell := panelCell stk_rets expanded }

/-- The numerator of `mk_prop_positive_tgt_rets` at one event time:
`(tgt_rets_by_event_time > 0).sum(axis=1)` counts the deal columns whose
cell is strictly positive (a `NaN` cell compares as `False`). -/
def propNum (p : Panel) (t : Int) : Nat :=
  (p.deals.filter fun d =>
    match p.cell t d with
    | some v => decide (0 < v)
    | none => false).length

/-- The denominator of `mk_prop_positive_tgt_rets` at one event time:
`(tgt_rets_by_event_time.abs() > 0).sum(axis=1)` counts the deal columns
whose cell has absolute value strictly greater than zero — a `NaN` cell and
a zero-valued cell both compare as `False`. -/
def propDen (p : Panel) (t : Int) : Nat :=
  (p.deals.filter fun d =>
    match p.cell t d with
    | some v => decide (0 < |v|)
    | none => false).length

/-- Embedding of `mk_prop_positive_tgt_rets`: the element-wise quotient
`numerator / denominator` over the event-time index.  Since every strictly
positive cell also has positive absolute value, `propNum ≤ propDen`, so a
zero denominator forces a zero numerator and the pandas quotient `0 / 0` is
`NaN` (`none`); the `inf` case of a positive numerator over a zero
denominator cannot arise. -/
def mk_prop_positive_tgt_rets (p : Panel) : List (Int × Option Rat) :=
  p.times.map fun t =>
    (t, if propDen p t = 0 then none
        else some ((propNum p t : Rat) / (propDen p t : Rat)))

/-!
Concrete inputs used by counterexamples and witnesses.  `vd40` and `dealEx`
mirror the spec's window example with 2021-01-01 as day 0: the announcement
2021-01-04 is day 3 and the daily valid dates 2021-01-01..2021-02-10 are
days 0..40, so the expected expansion 2021-01-05..2021-02-03 is days
4..33. -/

/-- Daily valid dates, day 0 through day 40. -/
def vd40 : List Int := (List.range 41).map fun i => (i : Int)

/-- A single deal announced on day 3. -/
def dealEx : Deal := ⟨3, 101, "AAA", "TTT"⟩

/-- Valid dates given out of order and with duplicates (the spec's
`[05, 06, 05, 07, 06]` example). -/
def vdDup : List Int := [5, 6, 5, 7, 6]

/-- The expansion of `dealEx` over `vdDup`: its window `[4, 33]` meets the
deduplicated valid dates in `{5, 6, 7}`. -/
def rowsDup : List ERow :=
  [⟨5, 3, 101, "AAA", "TTT"⟩, ⟨6, 3, 101, "AAA", "TTT"⟩,
   ⟨7, 3, 101, "AAA", "TTT"⟩]

/-- A deal announced on day 0, for the no-overlap example (the spec's
announcement 2020-04-09 with valid dates confined to 2021). -/
def dealFar : Deal := ⟨0, 55, "AAA", "TTT"⟩

/-- Valid dates far after `dealFar`'s 30-day window. -/
def vdFar : List Int := [400, 401]

/-- Deal records where dealno 1 has both an acquirer and a target row but
their `announcement` entries differ by one day. -/
def dealRecsSplit : List DealRec :=
  [⟨1, "acq", "AAA", 0⟩, ⟨1, "tgt", "TTT", 1⟩]

/-- Wide return frame for the two-deal same-date example: on day 3 the
targets return 1/10 and 1/5 and the acquirers 1/20 and 3/20. -/
def wideTwoDeals : Wide :=
  ⟨[3], ["T1", "T2", "A1", "A2"], fun d t =>
    if d = 3 then
      if t = "T1" then some (1/10)
      else if t = "T2" then some (1/5)
      else if t = "A1" then some (1/20)
      else if t = "A2" then some (3/20)
      else none
    else none⟩

/-- Two expanded deals active on day 3. -/
def expandedTwoDeals : List ERow :=
  [⟨3, 0, 1, "A1", "T1"⟩, ⟨3, 0, 2, "A2", "T2"⟩]

/-- Abnormal returns for the duplicate-target example: on day 3 ticker
`TA` has abnormal return 1/10 and ticker `TB` has 3/10. -/
def aretsDup : List ARet := [⟨3, "TA", 1/10⟩, ⟨3, "TB", 3/10⟩]

/-- Three expanded rows on day 3, two of them referencing the same target
`TA`, so the joined aret 1/10 is counted twice. -/
def expandedDupTgt : List ERow :=
  [⟨3, 0, 1, "X1", "TA"⟩, ⟨3, 0, 2, "X2", "TA"⟩, ⟨3, 0, 3, "X3", "TB"⟩]

/-- A panel holding a single legitimate zero return at event time 1 for
deal 10. -/
def panelZero : Panel :=
  ⟨[1], [10], fun t d => if t = 1 ∧ d = 10 then some 0 else none⟩

/-- A panel with two event times: every cell at event time 1 is missing
(denominator 0) while event time 2 holds the positive return 1 for
deal 10. -/
def panelHalf : Panel :=
  ⟨[1, 2], [10], fun t d => if t = 2 ∧ d = 10 then some 1 else none⟩

/-- A one-date, one-ticker wide return frame: only day 3, ticker `TTT`. -/
def wideDay3 : Wide :=
  ⟨[3], ["TTT"], fun d t => if d = 3 ∧ t = "TTT" then some (1/4) else none⟩

/-- A single expanded row whose date (day 4) is absent from `wideDay3`'s
date index. -/
def rowsOffIndex : List ERowET := [⟨4, 1, 7, "AAA", "TTT", 99⟩]

/-! Helper lemmas about the date-window machinery. -/

/-- Membership in the deduplicated sorted date list is membership in the
original collection. -/
theorem mem_dropDupSort {l : List Int} {d : Int} :
    d ∈ dropDupSort l ↔ d ∈ l := by
  simp [dropDupSort, List.mem_insertionSort, List.mem_dedup]

/-- The deduplicated sorted date list has no duplicates. -/
theorem nodup_dropDupSort (l : List Int) : (dropDupSort l).Nodup :=
  (List.perm_insertionSort _ _).symm.nodup (List.nodup_dedup l)

/-- The deduplicated sorted date list is ascending. -/
theorem sorted_dropDupSort (l : List Int) :
    (dropDupSort l).Sorted (fun a b => a ≤ b) :=
  List.sorted_insertionSort _ _

/-- A date is in a deal's event window iff it is a valid date lying between
1 and 30 days after the announcement, both ends inclusive. -/
theorem mem_eventWindow {vd : List Int} {a d : Int} :
    d ∈ eventWindow vd a ↔ d ∈ vd ∧ a + 1 ≤ d ∧ d ≤ a + 30 := by
  simp [eventWindow, List.mem_filter, mem_dropDupSort]

/-- An event window contains no duplicate dates. -/
theorem nodup_eventWindow (vd : List Int) (a : Int) :
    (eventWindow vd a).Nodup :=
  (nodup_dropDupSort vd).filter _

/-- An event window is ascending. -/
theorem sorted_eventWindow (vd : List Int) (a : Int) :
    (eventWindow vd a).Sorted (fun a b => a ≤ b) :=
  (sorted_dropDupSort vd).filter _

/-- A successful expansion is exactly the concatenation, over the events, of
the per-event windowed rows. -/
theorem expand_event_dates_eq_some {events : List Deal} {vd : List Int}
    {rows : List ERow} (h : expand_event_dates events vd = some rows) :
    rows = events.flatMap fun ev =>
      (eventWindow vd ev.announcement).map fun d =>
        ⟨d, ev.announcement, ev.dealno, ev.acq, ev.tgt⟩ := by
  simp only [expand_event_dates] at h
  split at h
  · exact absurd h (by simp)
  · exact (Option.some_inj.mp h).symm

/-- A pandas mean is a (non-`NaN`) value exactly on a non-empty list, and is
then the sum over the length. -/
theorem meanQ_eq_some {l : List Rat} {v : Rat} :
    meanQ l = some v ↔ l ≠ [] ∧ v = l.sum / l.length := by
  cases l <;> simp [meanQ, eq_comm]

/-- Claim C10: for an events table with zero rows the expansion also returns
the `None` signal, identical to the no-match outcome, so a caller cannot
distinguish "no deals" from "deals present but nothing matched". -/
theorem C10_empty_events_same_signal (vd : List Int) :
    expand_event_dates ([] : List Deal) vd = none := rfl

/-- Claim C4: for a non-empty deal set none of whose windows
`[announcement + 1, announcement + 30]` meets the valid dates, the
expansion signals `None` rather than returning an empty table. -/
theorem C4_no_overlap_signals_none (events : List Deal) (vd : List Int)
    (_hne : events ≠ [])
    (h : ∀ ev ∈ events, ∀ d ∈ vd,
      ¬(ev.announcement + 1 ≤ d ∧ d ≤ ev.announcement + 30)) :
    expand_event_dates events vd = none := by
  have hw : ∀ ev ∈ events, eventWindow vd ev.announcement = [] := by
    intro ev hev
    rw [List.eq_nil_iff_forall_not_mem]
    intro d hd
    rw [mem_eventWindow] at hd
    exact h ev hev d hd.1 hd.2
  simp only [expand_event_dates]
  rw [if_pos]
  rw [List.isEmpty_iff, List.flatMap_eq_nil_iff]
  intro ev hev
  rw [hw ev hev]
  rfl

/-- Witness for C4, the spec's example scaled to day numbers: a deal
announced on day 0 against valid dates confined to days 400..401 expands to
the `None` signal. -/
theorem C4_no_overlap_signals_none_witness :
    expand_event_dates [dealFar] vdFar = none :=
  C4_no_overlap_signals_none [dealFar] vdFar (by decide) (by decide)

/-- Claim C1 (code bug): the denominator of `mk_prop_positive_tgt_rets` is
`(panel.abs() > 0).sum(axis=1)`, which excludes a legitimate zero-valued
return.  On a panel whose only cell is the non-missing value 0 the
denominator is 0 and the proportion is `NaN`, where the claim (and the
function's own docstring, which says only missing returns are ignored)
requires denominator 1 and proportion 0. -/
theorem C1_zero_return_dropped_from_denominator :
    panelZero.cell 1 10 = some 0 ∧ propDen panelZero 1 = 0 ∧
    mk_prop_positive_tgt_rets panelZero = [(1, none)] := by
  refine ⟨by decide, by decide, by decide⟩

/-- Claim C9: an event time whose denominator is 0 yields a missing value,
not a division error, and every event time with a non-zero denominator
still gets its ordinary quotient. -/
theorem C9_zero_denominator_is_missing (p : Panel) (t : Int)
    (ht : t ∈ p.times) (hz : propDen p t = 0) :
    (t, (none : Option Rat)) ∈ mk_prop_positive_tgt_rets p ∧
    ∀ u ∈ p.times, propDen p u ≠ 0 →
      (u, some ((propNum p u : Rat) / (propDen p u : Rat))) ∈
        mk_prop_positive_tgt_rets p := by
  constructor
  · simp only [mk_prop_positive_tgt_rets, List.mem_map]
    exact ⟨t, ht, by rw [if_pos hz]⟩
  · intro u hu hnz
    simp only [mk_prop_positive_tgt_rets, List.mem_map]
    exact ⟨u, hu, by rw [if_neg hnz]⟩

/-- Witness for C9 on `panelHalf`: event time 1 has denominator 0 and comes
out missing while event time 2 keeps its quotient. -/
theorem C9_zero_denominator_is_missing_witness :
    ((1 : Int), (none : Option Rat)) ∈ mk_prop_positive_tgt_rets panelHalf ∧
    ((2 : Int), some ((propNum panelHalf 2 : Rat) / (propDen panelHalf 2 : Rat))) ∈
      mk_prop_positive_tgt_rets panelHalf := by
  have h := C9_zero_denominator_is_missing panelHalf 1 (by decide) (by decide)
  exact ⟨h.1, h.2 2 (by decide) (by decide)⟩

/-- Claim C3 (counterexample): `mk_ma_info` joins on the
`(announcement, dealno)` pair, not on `dealno` alone.  In `dealRecsSplit`
dealno 1 has both an acquirer and a target row, yet because their
announcement dates differ the output contains no deal, refuting the claimed
inner join on `dealno`. -/
theorem C3_join_on_dealno_refuted :
    (∃ r ∈ dealRecsSplit, r.firmtype = "acq" ∧ r.dealno = 1) ∧
    (∃ r ∈ dealRecsSplit, r.firmtype = "tgt" ∧ r.dealno = 1) ∧
    mk_ma_info dealRecsSplit = [] := by decide

/-- Claim C3 (amended): a deal appears in the output of `mk_ma_info` iff the
records contain an acquirer row and a target row agreeing on **both** the
announcement date and the deal number — an inner join on
`(announcement, dealno)` — and the output row carries that announcement,
dealno, the acquirer row's ticker and the target row's ticker. -/
theorem C3_inner_join_on_announcement_dealno (l : List DealRec) (dl : Deal) :
    dl ∈ mk_ma_info l ↔
      (∃ r ∈ l, r.firmtype = "acq" ∧ r.announcement = dl.announcement ∧
        r.dealno = dl.dealno ∧ r.ticker = dl.acq) ∧
      (∃ r ∈ l, r.firmtype = "tgt" ∧ r.announcement = dl.announcement ∧
        r.dealno = dl.dealno ∧ r.ticker = dl.tgt) := by
  obtain ⟨da, dn, dacq, dtgt⟩ := dl
  simp only [mk_ma_info, List.mem_flatMap, List.mem_map, List.mem_filter,
    Bool.and_eq_true, beq_iff_eq, Deal.mk.injEq]
  constructor
  · rintro ⟨a, ⟨haMem, haFt⟩, t, ⟨⟨htMem, htFt⟩, htAnn, htNo⟩, rfl, rfl, rfl, rfl⟩
    exact ⟨⟨a, haMem, haFt, rfl, rfl, rfl⟩, ⟨t, htMem, htFt, htAnn, htNo, rfl⟩⟩
  · rintro ⟨⟨a, haMem, haFt, haAnn, haNo, haTic⟩, ⟨t, htMem, htFt, htAnn, htNo, htTic⟩⟩
    subst haAnn haNo haTic htTic
    exact ⟨a, ⟨haMem, haFt⟩, t, ⟨⟨htMem, htFt⟩, htAnn, htNo⟩, rfl, rfl, rfl, rfl⟩

/-- When every day of the 30-day window is a valid date, the event window is
exactly the ascending list of days `announcement + 1 .. announcement + 30`. -/
theorem eventWindow_eq_of_full {vd : List Int} {a : Int}
    (h : ∀ i ∈ List.range 30, a + 1 + (i : Int) ∈ vd) :
    eventWindow vd a = (List.range 30).map fun i : Nat => a + 1 + (i : Int) := by
  have hTnodup : ((List.range 30).map fun i : Nat => a + 1 + (i : Int)).Nodup := by
    refine (List.nodup_range 30).map ?_
    intro i j hij
    simpa using hij
  have hTsorted :
      ((List.range 30).map fun i : Nat => a + 1 + (i : Int)).Sorted
        (fun x y => x ≤ y) := by
    refine List.pairwise_map.mpr ((List.pairwise_lt_range 30).imp ?_)
    intro i j hij
    show a + 1 + (i : Int) ≤ a + 1 + (j : Int)
    omega
  apply List.eq_of_perm_of_sorted (r := fun x y => x ≤ y)
  · rw [List.perm_ext_iff_of_nodup (nodup_eventWindow vd a) hTnodup]
    intro d
    rw [mem_eventWindow, List.mem_map]
    constructor
    · rintro ⟨-, h1, h2⟩
      refine ⟨(d - (a + 1)).toNat, List.mem_range.mpr ?_, ?_⟩
      · omega
      · show a + 1 + ((d - (a + 1)).toNat : Int) = d
        omega
    · rintro ⟨i, hi, rfl⟩
      rw [List.mem_range] at hi
      refine ⟨h i (List.mem_range.mpr hi), ?_, ?_⟩
      · show a + 1 ≤ a + 1 + (i : Int)
        omega
      · show a + 1 + (i : Int) ≤ a + 30
        omega
  · exact sorted_eventWindow vd a
  · exact hTsorted

/-- Claim C2: for a deal whose full calendar window
`[announcement + 1, announcement + 30]` lies inside the valid dates, the
expansion returns exactly that 30-date span — both endpoints included — one
row per day. -/
theorem C2_full_window_expands_inclusively (ev : Deal) (vd : List Int)
    (h : ∀ i ∈ List.range 30, ev.announcement + 1 + (i : Int) ∈ vd) :
    expand_event_dates [ev] vd =
      some (((List.range 30).map fun i : Nat => ev.announcement + 1 + (i : Int)).map
        fun d => ⟨d, ev.announcement, ev.dealno, ev.acq, ev.tgt⟩) := by
  have hw := eventWindow_eq_of_full h
  simp only [expand_event_dates, List.flatMap_cons, List.flatMap_nil,
    List.append_nil, hw]
  rw [if_neg]
  simp [List.isEmpty_iff, List.map_eq_nil_iff, List.range_eq_nil]

/-- Witness for C2, the spec's example with 2021-01-01 as day 0: the deal
announced on day 3 (2021-01-04) expanded over daily valid dates 0..40
(2021-01-01..2021-02-10) yields exactly days 4..33
(2021-01-05..2021-02-03), 30 rows. -/
theorem C2_full_window_expands_inclusively_witness :
    expand_event_dates [dealEx] vd40 =
      some (((List.range 30).map fun i : Nat => dealEx.announcement + 1 + (i : Int)).map
        fun d => ⟨d, dealEx.announcement, dealEx.dealno, dealEx.acq, dealEx.tgt⟩) :=
  C2_full_window_expands_inclusively dealEx vd40 (by decide)

/-- Claim C5: when the deals carry distinct deal numbers, every row of a
successful expansion has a date drawn from the valid dates (however
unsorted or duplicated they were), an event time
`(date - announcement)` in `[1, 30]`, and no `(dealno, date)` pair occurs
twice. -/
theorem C5_expansion_invariants (events : List Deal) (vd : List Int)
    (rows : List ERow)
    (hdn : (events.map fun e => e.dealno).Nodup)
    (h : expand_event_dates events vd = some rows) :
    (∀ r ∈ rows, r.date ∈ vd ∧ 1 ≤ r.date - r.announcement ∧
      r.date - r.announcement ≤ 30) ∧
    (rows.map fun r => (r.dealno, r.date)).Nodup := by
  have hr := expand_event_dates_eq_some h
  subst hr
  constructor
  · intro r hrm
    rw [List.mem_flatMap] at hrm
    obtain ⟨ev, hev, hrm⟩ := hrm
    rw [List.mem_map] at hrm
    obtain ⟨d, hd, rfl⟩ := hrm
    rw [mem_eventWindow] at hd
    obtain ⟨hd1, hd2, hd3⟩ := hd
    show d ∈ vd ∧ 1 ≤ d - ev.announcement ∧ d - ev.announcement ≤ 30
    exact ⟨hd1, by omega, by omega⟩
  · rw [List.map_flatMap, List.nodup_flatMap]
    constructor
    · intro ev hev
      rw [List.map_map]
      refine (nodup_eventWindow vd ev.announcement).map ?_
      intro d1 d2 hx
      simpa using hx
    · refine (List.pairwise_map.mp hdn).imp ?_
      intro e1 e2 hne x hx1 hx2
      simp only [List.map_map, List.mem_map, Function.comp_apply] at hx1 hx2
      obtain ⟨d1, -, rfl⟩ := hx1
      obtain ⟨d2, -, h12⟩ := hx2
      exact hne ((congrArg Prod.fst h12).symm)

/-- Witness for C5 on the spec's duplicate/unsorted valid dates
`[5, 6, 5, 7, 6]`: the expansion of `dealEx` is the three rows for days
5, 6, 7, each date valid with event time in `[1, 30]`, and no duplicated
`(dealno, date)` pair. -/
theorem C5_expansion_invariants_witness :
    (∀ r ∈ rowsDup, r.date ∈ vdDup ∧ 1 ≤ r.date - r.announcement ∧
      r.date - r.announcement ≤ 30) ∧
    (rowsDup.map fun r => (r.dealno, r.date)).Nodup :=
  C5_expansion_invariants [dealEx] vdDup rowsDup (by decide) (by decide)

/-- Membership in `mean_by_dates`: an entry exists for a date iff some row
carries that date, and its value is the pandas mean over exactly that date's
rows. -/
theorem mem_mean_by_dates {l : List (Int × Rat)} {d : Int} {o : Option Rat} :
    (d, o) ∈ mean_by_dates l ↔
      (d ∈ l.map fun p => p.1) ∧
      o = meanQ ((l.filter fun p => p.1 == d).map fun p => p.2) := by
  rw [mean_by_dates, List.mem_insertionSort]
  simp only [List.mem_map, List.mem_dedup, Prod.mk.injEq]
  constructor
  · rintro ⟨d1, hd1, rfl, rfl⟩
    exact ⟨hd1, rfl⟩
  · rintro ⟨hd, rfl⟩
    exact ⟨d, hd, rfl, rfl⟩

/-- The joined aret terms for a date are non-empty iff some joined row
carries that date. -/
theorem aretTermsOn_ne_nil {expanded : List ERow} {stk_arets : List ARet}
    {d : Int} :
    aretTermsOn expanded stk_arets d ≠ [] ↔
      d ∈ (tgtJoinARets expanded stk_arets).map fun p => p.1 := by
  simp only [aretTermsOn, Ne, List.map_eq_nil_iff, List.filter_eq_nil_iff,
    beq_iff_eq, not_forall, List.mem_map, not_not, exists_prop]

/-- Claim C6: an entry of `mk_buy_tgt_sell_acq_rets` exists for a date iff
that date occurs in the expanded events and in the (long-form) returns and
both per-date inner joins on `(date, ticker)` are non-empty, and the entry
is then mean(matched target returns) minus mean(matched acquirer returns);
dates with no overlap are excluded from the output entirely.  On the spec's
two-deal example — target returns 1/10 and 1/5, acquirer returns 1/20 and
3/20 on one date — the output for that date is 1/20 (that is, 0.05). -/
theorem C6_buy_tgt_sell_acq_mean_difference :
    (∀ (expanded : List ERow) (stk_rets : Wide) (d : Int) (v : Rat),
      (d, v) ∈ mk_buy_tgt_sell_acq_rets expanded stk_rets ↔
        ((d ∈ expanded.map fun e => e.date) ∧
         (d ∈ (wide_to_long_rets stk_rets).map fun r => r.date) ∧
         tgtRetsOn expanded (wide_to_long_rets stk_rets) d ≠ [] ∧
         acqRetsOn expanded (wide_to_long_rets stk_rets) d ≠ [] ∧
         v = (tgtRetsOn expanded (wide_to_long_rets stk_rets) d).sum /
               ((tgtRetsOn expanded (wide_to_long_rets stk_rets) d).length : Rat) -
             (acqRetsOn expanded (wide_to_long_rets stk_rets) d).sum /
               ((acqRetsOn expanded (wide_to_long_rets stk_rets) d).length : Rat))) ∧
    mk_buy_tgt_sell_acq_rets expandedTwoDeals wideTwoDeals = [(3, 1/20)] := by
  constructor
  · intro expanded stk_rets d v
    constructor
    · intro hm
      rw [mk_buy_tgt_sell_acq_rets, List.mem_insertionSort] at hm
      simp only [List.mem_filterMap] at hm
      obtain ⟨d1, hd1, hmm⟩ := hm
      rw [List.mem_filter] at hd1
      obtain ⟨hd1a, hd1b⟩ := hd1
      rw [List.mem_dedup] at hd1a
      cases hb : meanQ (tgtRetsOn expanded (wide_to_long_rets stk_rets) d1) with
      | none => rw [hb] at hmm; simp at hmm
      | some b =>
        cases hs : meanQ (acqRetsOn expanded (wide_to_long_rets stk_rets) d1) with
        | none => rw [hb, hs] at hmm; simp at hmm
        | some s =>
          rw [hb, hs] at hmm
          rw [Option.some_inj] at hmm
          obtain ⟨rfl, rfl⟩ := Prod.mk.injEq .. ▸ hmm
          rw [meanQ_eq_some] at hb hs
          exact ⟨hd1a, List.elem_iff.mp hd1b, hb.1, hs.1, by rw [hb.2, hs.2]⟩
    · rintro ⟨hda, hdb, htne, hane, rfl⟩
      rw [mk_buy_tgt_sell_acq_rets, List.mem_insertionSort]
      simp only [List.mem_filterMap]
      refine ⟨d, ?_, ?_⟩
      · rw [List.mem_filter]
        exact ⟨List.mem_dedup.mpr hda, List.elem_iff.mpr hdb⟩
      · rw [meanQ_eq_some.mpr ⟨htne, rfl⟩, meanQ_eq_some.mpr ⟨hane, rfl⟩]
  · simp +decide [mk_buy_tgt_sell_acq_rets, expandedTwoDeals, wideTwoDeals,
      wide_to_long_rets, tgtRetsOn, acqRetsOn, meanQ, List.insertionSort,
      List.orderedInsert]
    norm_num

/-- Claim C7: an entry of `mk_buy_tgt_sell_mkt_rets` exists for a date iff
the inner join of expanded target tickers against the abnormal returns on
`(date, ticker)` has at least one row for that date, and the entry is then
the mean of `aret` over all joined rows for that date, duplicate expanded
rows each contributing their own term.  On the spec's duplicate example —
joined arets 1/10, 1/10 (the same target via two rows) and 3/10 on one
date — the output is (1/10 + 1/10 + 3/10) / 3 = 1/6. -/
theorem C7_buy_tgt_sell_mkt_mean_with_duplicates :
    (∀ (expanded : List ERow) (stk_arets : List ARet) (d : Int) (v : Rat),
      (d, v) ∈ mk_buy_tgt_sell_mkt_rets expanded stk_arets ↔
        aretTermsOn expanded stk_arets d ≠ [] ∧
        v = (aretTermsOn expanded stk_arets d).sum /
              ((aretTermsOn expanded stk_arets d).length : Rat)) ∧
    mk_buy_tgt_sell_mkt_rets expandedDupTgt aretsDup = [(3, 1/6)] := by
  constructor
  · intro expanded stk_arets d v
    constructor
    · intro hm
      rw [mk_buy_tgt_sell_mkt_rets] at hm
      simp only [List.mem_filterMap] at hm
      obtain ⟨⟨d1, o⟩, hmem, hmap⟩ := hm
      simp only [Option.map_eq_some'] at hmap
      obtain ⟨w, rfl, heq⟩ := hmap
      obtain ⟨rfl, rfl⟩ := Prod.mk.injEq .. ▸ heq
      rw [mem_mean_by_dates] at hmem
      have hq := hmem.2.symm
      rw [meanQ_eq_some] at hq
      exact ⟨hq.1, hq.2⟩
    · rintro ⟨hne, rfl⟩
      rw [mk_buy_tgt_sell_mkt_rets]
      simp only [List.mem_filterMap]
      refine ⟨(d, some ((aretTermsOn expanded stk_arets d).sum /
        ((aretTermsOn expanded stk_arets d).length : Rat))), ?_, ?_⟩
      · rw [mem_mean_by_dates]
        exact ⟨aretTermsOn_ne_nil.mp hne, (meanQ_eq_some.mpr ⟨hne, rfl⟩).symm⟩
      · simp
  · simp +decide [mk_buy_tgt_sell_mkt_rets, expandedDupTgt, aretsDup,
      tgtJoinARets, mean_by_dates, meanQ, List.insertionSort,
      List.orderedInsert]
    norm_num

/-- If every row aimed at cell `(t, d)` fails the lookup guard (its date is
absent from the return frame's index or its target ticker from the columns),
the cell is never written and stays missing. -/
theorem panelCell_eq_none {w : Wide} {expanded : List ERowET} {t d : Int}
    (h : ∀ r ∈ expanded, r.date - r.announcement = t → r.dealno = d →
      ¬(r.date ∈ w.dates ∧ r.tgt ∈ w.cols)) :
    panelCell w expanded t d = none := by
  induction expanded with
  | nil => rfl
  | cons r rs ih =>
    simp only [panelCell, List.foldl_cons] at *
    by_cases h1 : (r.date - r.announcement == t && r.dealno == d) = true
    · have h1e := h1
      rw [Bool.and_eq_true, beq_iff_eq, beq_iff_eq] at h1e
      have h2 := h r (List.mem_cons_self r rs) h1e.1 h1e.2
      have h3 : (w.dates.contains r.date && w.cols.contains r.tgt) ≠ true := by
        intro hc
        rw [Bool.and_eq_true] at hc
        exact h2 ⟨List.elem_iff.mp hc.1, List.elem_iff.mp hc.2⟩
      rw [if_pos h1, if_neg h3]
      exact ih fun r2 hr2 => h r2 (List.mem_cons_of_mem r hr2)
    · rw [if_neg h1]
      exact ih fun r2 hr2 => h r2 (List.mem_cons_of_mem r hr2)

/-- Claim C8: a row of the expanded table whose date is absent from the
return frame's date index, or whose target ticker is absent from its
columns, is skipped, so a cell all of whose rows fail the lookup stays
missing rather than erroring; and the panel's event time is recomputed from
`date - announcement` for every row — overwriting any pre-existing
`event_time` column, whose content cannot affect the output. -/
theorem C8_panel_missing_lookups_and_recomputed_event_time :
    (∀ (w : Wide) (expanded : List ERowET) (t d : Int),
      (∀ r ∈ expanded, r.date - r.announcement = t → r.dealno = d →
        ¬(r.date ∈ w.dates ∧ r.tgt ∈ w.cols)) →
      (mk_tgt_rets_by_event_time w expanded).cell t d = none) ∧
    (∀ (w : Wide) (expanded : List ERowET) (f : ERowET → Int),
      mk_tgt_rets_by_event_time w
          (expanded.map fun r => { r with event_time := f r }) =
        mk_tgt_rets_by_event_time w expanded) := by
  constructor
  · intro w expanded t d h
    exact panelCell_eq_none h
  · intro w expanded f
    unfold mk_tgt_rets_by_event_time
    congr 1
    · simp only [List.map_map]
      rfl
    · simp only [List.map_map]
      rfl
    · funext t d
      unfold panelCell
      rw [List.foldl_map]

/-- Witness for C8: the single expanded row of `rowsOffIndex` targets cell
`(3, 7)` but its date (day 4) is off `wideDay3`'s index, so the cell is
missing. -/
theorem C8_panel_missing_lookups_witness :
    (mk_tgt_rets_by_event_time wideDay3 rowsOffIndex).cell 3 7 = none :=
  C8_panel_missing_lookups_and_recomputed_event_time.1 wideDay3 rowsOffIndex 3 7
    (by decide)

end Project2
